import Mathlib

/-!
Shallow embedding of the `zinject` dependency registry (src/zinject.go).

Go maps are modelled as association lists: lookup returns the first
matching entry, assignment replaces the first matching entry or appends.
Go's map iteration order is unspecified; the model fixes insertion order.
A `reflect.Value` is modelled as `Option GoVal`, where `none` is the
invalid (zero) Value; a `reflect.Type` is modelled by the inductive `Ty`.
-/

/-- Association-list lookup, modelling Go `m[k]` presence: first match. -/
def lookupA {α β : Type} [DecidableEq α] : List (α × β) → α → Option β
  | [], _ => none
  | (x, y) :: rest, a => if x = a then some y else lookupA rest a

/-- Association-list assignment, modelling Go `m[k] = v`: replace the
first entry for the key, or append a new entry at the end. -/
def updAssoc {α β : Type} [DecidableEq α] : List (α × β) → α → β → List (α × β)
  | [], a, b => [(a, b)]
  | (x, y) :: rest, a, b =>
    if x = a then (a, b) :: rest else (x, y) :: updAssoc rest a b

/-- Model of a Go type (`reflect.Type`): a named concrete type with its
method set, an interface type with its method set, or a pointer type.
Two `Ty`s are equal iff they denote the same type. -/
inductive Ty where
  | named (name : String) (methods : List String)
  | iface (name : String) (methods : List String)
  | ptr (elem : Ty)
deriving DecidableEq, Repr

/-- `t.Kind() == reflect.Interface`. -/
def Ty.isInterface : Ty → Bool
  | .iface _ _ => true
  | _ => false

/-- The method set of a type. For a pointer type we take the pointee's
method set (the fragment of Go's method-set rules the claims need). -/
def Ty.methods : Ty → List String
  | .named _ ms => ms
  | .iface _ ms => ms
  | .ptr e => e.methods

/-- Models `k.Implements(t)`: `t` is an interface type and `k`'s method
set contains every method of `t`. -/
def implementsB (k t : Ty) : Bool :=
  t.isInterface && t.methods.all (fun m => k.methods.contains m)

/-- A non-nil Go runtime value: its dynamic type and an opaque payload. -/
structure GoVal where
  ty : Ty
  data : String
deriving DecidableEq, Repr

/-- The two-level store `map[reflect.Type]map[string]reflect.Value`.
Inner entries hold `Option GoVal` because a stored `reflect.Value` may
itself be the invalid Value. -/
abbrev Store : Type := List (Ty × List (String × Option GoVal))

/-- Models reading `m[key]` from an inner map and testing `IsValid`:
an absent key yields the invalid Value, i.e. `none`. -/
def lookupVal (m : List (String × Option GoVal)) (key : String) : Option GoVal :=
  match lookupA m key with
  | some r => r
  | none => none

/-- `injector.mapOf`: return the inner map for `typ`, materializing an
empty one in the store when absent.  Returns the inner map and the
(possibly mutated) store. -/
def mapOfS (s : Store) (t : Ty) : List (String × Option GoVal) × Store :=
  match lookupA s t with
  | some m => (m, s)
  | none => ([], s ++ [(t, [])])

/-- `inj.mapOf(t)[key] = v`: ensure the inner map exists, then assign. -/
def storeSet (s : Store) (t : Ty) (key : String) (v : Option GoVal) : Store :=
  let p := mapOfS s t
  updAssoc p.2 t (updAssoc p.1 key v)

/-- The capability scan loop in `injector.Get`: iterate the registered
types; for each that implements `t`, read its binding under `key`; the
first valid one wins, otherwise the result stays invalid. -/
def scanVals : Store → Ty → String → Option GoVal
  | [], _, _ => none
  | (k, m) :: rest, t, key =>
    if implementsB k t then
      match lookupVal m key with
      | some v => some v
      | none => scanVals rest t key
    else scanVals rest t key

/-- A registry: its store, and either no parent (`root`) or a parent
registry (`child`), modelling the `parent Injector` field. -/
inductive Injector where
  | root (values : Store)
  | child (values : Store) (parent : Injector)
deriving DecidableEq

/-- The store of a registry. -/
def Injector.storeOf : Injector → Store
  | .root vs => vs
  | .child vs _ => vs

/-- Replace the store of a registry, keeping its parent link. -/
def Injector.withStore : Injector → Store → Injector
  | .root _, vs => .root vs
  | .child _ p, vs => .child vs p

/-- `New()`: an empty registry with no parent. -/
def Injector.New : Injector := .root []

/-- The local part of `injector.Get`: direct lookup through `mapOf`
(which may insert an empty inner map), then the capability scan over the
current store when `t` is an interface.  Returns the value found and the
store after the `mapOf` side effect. -/
def localGet (vs : Store) (t : Ty) (key : String) : Option GoVal × Store :=
  let p := mapOfS vs t
  match lookupVal p.1 key with
  | some v => (some v, p.2)
  | none =>
    if t.isInterface then (scanVals p.2 t key, p.2) else (none, p.2)

/-- `injector.Get`: local lookup, capability scan, then delegation to the
parent when still invalid.  Returns the value and the registry after the
call (the `mapOf` side effect, threaded through the parent chain). -/
def Injector.Get : Injector → Ty → String → Option GoVal × Injector
  | .root vs, t, key =>
    let r := localGet vs t key
    (r.1, .root r.2)
  | .child vs p, t, key =>
    let r := localGet vs t key
    match r.1 with
    | some v => (some v, .child r.2 p)
    | none =>
      let pr := p.Get t key
      (pr.1, .child r.2 pr.2)

/-- `injector.Set`: store `val` under a caller-supplied type and key. -/
def Injector.Set (inj : Injector) (t : Ty) (key : String) (v : Option GoVal) : Injector :=
  inj.withStore (storeSet inj.storeOf t key v)

/-- `injector.Register`: store `val` under its own dynamic type
(`reflect.TypeOf(val)`) and `key`. -/
def Injector.Register (inj : Injector) (v : GoVal) (key : String) : Injector :=
  inj.withStore (storeSet inj.storeOf v.ty key (some v))

/-- `injector.SetParent`: install or replace the parent link. -/
def Injector.SetParent (inj : Injector) (p : Injector) : Injector :=
  .child inj.storeOf p

/-- Strips pointer indirection one level at a time:
`for t.Kind() == reflect.Ptr { t = t.Elem() }`. -/
def stripPtr : Ty → Ty
  | .ptr e => stripPtr e
  | t => t

/-- The panic message of `InterfaceOf`. -/
def interfaceOfPanicMsg : String :=
  "Called inject.InterfaceOf with a value that is not a pointer to an interface. (*MyInterface)(nil)"

/-- `InterfaceOf`: strip pointer layers from the descriptor's type; panic
(modelled as `Except.error`) when the result is not an interface type. -/
def InterfaceOf (t : Ty) : Except String Ty :=
  let s := stripPtr t
  if s.isInterface then .ok s else .error interfaceOfPanicMsg

/-- `injector.RegisterAs`: store `val` under the interface type derived
by `InterfaceOf` from the descriptor; propagates the panic. -/
def Injector.RegisterAs (inj : Injector) (v : GoVal) (key : String) (ifaceTd : Ty) :
    Except String Injector :=
  match InterfaceOf ifaceTd with
  | .ok t => .ok (inj.Set t key (some v))
  | .error e => .error e

/-!
Struct-tag lookup, translated from Go `reflect.StructTag.Lookup`, and the
auto-wiring operation `injector.Inject`.
-/

/-- A byte may extend a tag name: `c > ' ' && c != ':' && c != 34 && c != 0x7f`. -/
def nameChar (c : Char) : Bool :=
  c.toNat > 32 && c ≠ ':' && c.toNat ≠ 34 && c.toNat ≠ 127

/-- Skip leading spaces of a tag. -/
def skipSpaces : List Char → List Char
  | ' ' :: rest => skipSpaces rest
  | l => l

/-- Scan the maximal name prefix of a tag. -/
def scanName : List Char → List Char × List Char
  | [] => ([], [])
  | c :: rest =>
    if nameChar c then
      let p := scanName rest
      (c :: p.1, p.2)
    else ([], c :: rest)

/-- Scan a quoted tag value after its opening quote, honouring `\`-escapes:
returns the body (closing quote excluded) and the rest, or `none` when the
scan runs past the end of the tag (Go then breaks out of the loop). -/
def scanQBody : List Char → Option (List Char × List Char)
  | [] => none
  | '"' :: rest => some ([], rest)
  | '\\' :: c :: rest =>
    match scanQBody rest with
    | some p => some ('\\' :: c :: p.1, p.2)
    | none => none
  | '\\' :: [] => none
  | c :: rest =>
    match scanQBody rest with
    | some p => some (c :: p.1, p.2)
    | none => none

/-- Simple escapes of `strconv.Unquote` (the subset used in struct tags;
hex, octal and unicode escapes are not modelled). -/
def escChar : Char → Option Char
  | 'n' => some '\n'
  | 't' => some '\t'
  | '\\' => some '\\'
  | '"' => some '"'
  | _ => none

/-- `strconv.Unquote` on the body of a double-quoted string: plain
characters pass through, a quote or newline is rejected, a backslash must
begin a recognized escape. -/
def unquoteBody : List Char → Option (List Char)
  | [] => some []
  | '"' :: _ => none
  | '\n' :: _ => none
  | '\\' :: c :: rest =>
    match escChar c with
    | some e =>
      match unquoteBody rest with
      | some l => some (e :: l)
      | none => none
    | none => none
  | '\\' :: [] => none
  | c :: rest =>
    match unquoteBody rest with
    | some l => some (c :: l)
    | none => none

/-- The loop of `reflect.StructTag.Lookup`, with fuel for termination
(each iteration consumes at least one character, so `length + 1` fuel is
always enough).  A tag not in the conventional `name:"value"` format makes
the loop break: the key is then not found. -/
def lookupTagAux (key : String) : Nat → List Char → Option String
  | 0, _ => none
  | fuel + 1, tag =>
    let tag1 := skipSpaces tag
    if tag1.isEmpty then none
    else
      let p := scanName tag1
      match p.1, p.2 with
      | [], _ => none
      | nm, ':' :: '"' :: r2 =>
        match scanQBody r2 with
        | none => none
        | some q =>
          if String.mk nm = key then
            match unquoteBody q.1 with
            | some v => some (String.mk v)
            | none => none
          else lookupTagAux key fuel q.2
      | _, _ => none

/-- `sf.Tag.Lookup(key)`: `some value` when found, `none` otherwise. -/
def lookupTag (tag key : String) : Option String :=
  lookupTagAux key (tag.length + 1) tag.data

/-- A struct field's static description: whether it is exported, its raw
tag string, and its declared type. -/
structure FieldDecl where
  exported : Bool
  tag : String
  ty : Ty
deriving DecidableEq, Repr

/-- The runtime value handed to `Inject`: a (non-nil) pointer, a nil
pointer, a non-struct value, or a struct value carrying per-field
declarations and current field values. -/
inductive InVal where
  | ptrTo (p : InVal)
  | nilp
  | nonStruct (t : Ty)
  | struktV (fields : List (FieldDecl × GoVal))
deriving DecidableEq

/-- `for v.Kind() == reflect.Ptr { v = v.Elem() }`: `none` models reaching
the invalid Value (Elem of a nil pointer). -/
def derefAll : InVal → Option InVal
  | .ptrTo p => derefAll p
  | .nilp => none
  | v => some v

/-- A value obtained through at least one pointer dereference is
addressable; `reflect.ValueOf` itself yields a non-addressable value. -/
def isIndirect : InVal → Bool
  | .ptrTo _ => true
  | _ => false

/-- Write the struct's final field values back through the pointer layers. -/
def rebuild : InVal → List (FieldDecl × GoVal) → InVal
  | .ptrTo p, fs => .ptrTo (rebuild p fs)
  | .struktV _, fs => .struktV fs
  | v, _ => v

/-- Models `v.Type().AssignableTo(dst)` for the shapes in this model:
identical types, or implementation of an interface type. -/
def assignable (src dst : Ty) : Bool :=
  if src = dst then true else implementsB src dst

/-- Outcome of `Inject`: the nil error, the
`Value not found for type ft` error carrying the field type, or the panic
of `reflect.Value.Set` on a non-assignable value. -/
inductive Outcome where
  | ok
  | notFound (t : Ty)
  | panicked (t : Ty) (v : GoVal)
deriving DecidableEq

/-- The field loop of `injector.Inject`: skip non-settable fields, look up
the `inject` tag, resolve via `Get` (threading its store effect), abort
with an error on an invalid result, and `Set` the field otherwise —
panicking when the resolved value is not assignable to the field type. -/
def injectFields : Injector → Bool → List (FieldDecl × GoVal) →
    Outcome × List (FieldDecl × GoVal) × Injector
  | inj, _, [] => (.ok, [], inj)
  | inj, addr, (d, v0) :: rest =>
    if !(addr && d.exported) then
      let r := injectFields inj addr rest
      (r.1, (d, v0) :: r.2.1, r.2.2)
    else
      match lookupTag d.tag "inject" with
      | none =>
        let r := injectFields inj addr rest
        (r.1, (d, v0) :: r.2.1, r.2.2)
      | some k =>
        let g := inj.Get d.ty k
        match g.1 with
        | none => (.notFound d.ty, (d, v0) :: rest, g.2)
        | some v =>
          if assignable v.ty d.ty then
            let r := injectFields g.2 addr rest
            (r.1, (d, v) :: r.2.1, r.2.2)
          else (.panicked d.ty v, (d, v0) :: rest, g.2)

/-- `injector.Inject`: dereference pointer layers; a non-struct result is
a no-op success; otherwise walk the fields in declaration order. -/
def Injector.Inject (inj : Injector) (val : InVal) : Outcome × InVal × Injector :=
  match derefAll val with
  | some (.struktV fs) =>
    let r := injectFields inj (isIndirect val) fs
    (r.1, rebuild val r.2.1, r.2.2)
  | _ => (.ok, val, inj)

/-!
Spec-side definitions: the resolution order as the spec words it, the
binding-level view of a store, and observation helpers for the claims.
-/

/-- The binding under `(t, key)` that a store holds: the spec's
"type-to-key-to-value mapping" read at one point.  `none` covers both an
absent binding and a stored invalid Value. -/
def directStore (vs : Store) (t : Ty) (key : String) : Option GoVal :=
  match lookupA vs t with
  | some m => lookupVal m key
  | none => none

/-- Resolution following the spec's words: first a direct local lookup of
`(t, key)`; on a miss, when `t` is an interface shape, a scan of the
locally registered types for one implementing `t` that has a valid
binding under `key`; then delegation of the whole call to the parent when
installed; otherwise the invalid marker. -/
def specGet : Injector → Ty → String → Option GoVal
  | .root vs, t, key =>
    match directStore vs t key with
    | some v => some v
    | none => if t.isInterface then scanVals vs t key else none
  | .child vs p, t, key =>
    match directStore vs t key with
    | some v => some v
    | none =>
      match (if t.isInterface then scanVals vs t key else none) with
      | some v => some v
      | none => specGet p t key

/-- Two registries have the same shape of parent chain and, level by
level, the same bindings. -/
def sameBindings : Injector → Injector → Prop
  | .root vs, .root vs' => ∀ t k, directStore vs t k = directStore vs' t k
  | .child vs p, .child vs' p' =>
    (∀ t k, directStore vs t k = directStore vs' t k) ∧ sameBindings p p'
  | _, _ => False

/-- Whether the value reached after dereferencing is struct-shaped. -/
def isStructShaped : Option InVal → Bool
  | some (.struktV _) => true
  | _ => false

/-!
Concrete example types, values and registries, mirroring the repository's
test file (`SpecialString`, `TestStruct`, the `"a dep"` / `"another dep"`
registrations).  Used to exercise the theorems on closed inputs.
-/

/-- The `string` type. -/
def tyStr : Ty := .named "string" []

/-- The `int` type. -/
def tyInt : Ty := .named "int" []

/-- The empty interface `SpecialString` of the test file. -/
def tyS : Ty := .iface "SpecialString" []

/-- A one-method interface, which `string` does not implement. -/
def tyOneM : Ty := .iface "Speaker" ["Speak"]

/-- The string value `"a dep"`. -/
def vA : GoVal := ⟨tyStr, "a dep"⟩

/-- The string value `"another dep"`. -/
def vB : GoVal := ⟨tyStr, "another dep"⟩

/-- The zero string value. -/
def vZero : GoVal := ⟨tyStr, ""⟩

/-- An exported field carrying the keyed annotation with the empty key. -/
def fldKeyedEmpty : FieldDecl := ⟨true, "inject:\"\" json:\"-\"", tyStr⟩

/-- An exported field carrying the bare marker annotation. -/
def fldBare : FieldDecl := ⟨true, "inject", tyStr⟩

/-- An exported field of a never-registered interface type, annotated. -/
def fldMissing : FieldDecl := ⟨true, "inject:\"\"", tyOneM⟩

/-- An exported field of interface type `SpecialString`, annotated. -/
def fldIface : FieldDecl := ⟨true, "inject:\"\"", tyS⟩

/-- A registry with `"a dep"` registered under `string` and the empty key. -/
def injA : Injector := (Injector.root []).Register vA ""

/-- A registry where `RegisterAs` stored the string `"a dep"` under the
`Speaker` interface, which `string` does not implement. -/
def injBad : Injector :=
  match (Injector.root []).RegisterAs vA "" (Ty.ptr tyOneM) with
  | .ok i => i
  | .error _ => Injector.root []

/-!
Helper lemmas about the association-list primitives and the store.
-/

theorem lookupA_upd_self {α β : Type} [DecidableEq α] (l : List (α × β)) (a : α) (b : β) :
    lookupA (updAssoc l a b) a = some b := by
  induction l with
  | nil => simp [updAssoc, lookupA]
  | cons hd tl ih =>
    obtain ⟨x, y⟩ := hd
    by_cases hx : x = a
    · simp [updAssoc, lookupA, hx]
    · simp [updAssoc, lookupA, hx, ih]

theorem lookupA_upd_other {α β : Type} [DecidableEq α] (l : List (α × β)) (a a' : α) (b : β)
    (h : a' ≠ a) : lookupA (updAssoc l a b) a' = lookupA l a' := by
  have h' : ¬(a = a') := fun hc => h hc.symm
  induction l with
  | nil => simp [updAssoc, lookupA, h']
  | cons hd tl ih =>
    obtain ⟨x, y⟩ := hd
    by_cases hx : x = a
    · subst hx
      simp [updAssoc, lookupA, h']
    · simp [updAssoc, lookupA, hx, ih]

theorem lookupA_append_single {α β : Type} [DecidableEq α] (l : List (α × β)) (a a' : α) (b : β) :
    lookupA (l ++ [(a, b)]) a' =
      match lookupA l a' with
      | some r => some r
      | none => if a = a' then some b else none := by
  induction l with
  | nil => simp [lookupA]
  | cons hd tl ih =>
    obtain ⟨x, y⟩ := hd
    by_cases hx : x = a'
    · simp [lookupA, hx]
    · simp [lookupA, hx, ih]

theorem directStore_append_empty (vs : Store) (t t' : Ty) (k' : String) :
    directStore (vs ++ [(t, [])]) t' k' = directStore vs t' k' := by
  unfold directStore
  rw [lookupA_append_single]
  cases h : lookupA vs t' with
  | some m => simp
  | none =>
    by_cases ht : t = t' <;> simp [ht, lookupVal, lookupA]

theorem scanVals_append_empty (vs : Store) (t t' : Ty) (key : String) :
    scanVals (vs ++ [(t', [])]) t key = scanVals vs t key := by
  induction vs with
  | nil => simp [scanVals, lookupVal, lookupA]
  | cons hd tl ih =>
    obtain ⟨x, m⟩ := hd
    by_cases hx : implementsB x t
    · cases hm : lookupVal m key <;> simp [scanVals, hx, hm, ih]
    · simp [scanVals, hx, ih]

theorem directStore_mapOfS (vs : Store) (t t' : Ty) (k' : String) :
    directStore (mapOfS vs t).2 t' k' = directStore vs t' k' := by
  unfold mapOfS
  cases h : lookupA vs t with
  | some m => simp
  | none => simpa using directStore_append_empty vs t t' k'

theorem localGet_fst (vs : Store) (t : Ty) (key : String) :
    (localGet vs t key).1 =
      match directStore vs t key with
      | some v => some v
      | none => if t.isInterface then scanVals vs t key else none := by
  unfold localGet mapOfS directStore
  cases h : lookupA vs t with
  | some m =>
    cases hv : lookupVal m key with
    | some v => simp [hv]
    | none => cases hi : t.isInterface <;> simp [hv, hi]
  | none =>
    cases hi : t.isInterface <;>
      simp [lookupVal, lookupA, scanVals_append_empty, hi]

theorem localGet_snd (vs : Store) (t : Ty) (key : String) :
    (localGet vs t key).2 = (mapOfS vs t).2 := by
  unfold localGet
  cases hv : lookupVal (mapOfS vs t).1 key <;> cases hi : t.isInterface <;> simp [hv, hi]

theorem storeOf_withStore (inj : Injector) (s : Store) : (inj.withStore s).storeOf = s := by
  cases inj <;> rfl

theorem register_eq_set (inj : Injector) (v : GoVal) (key : String) :
    inj.Register v key = inj.Set v.ty key (some v) := rfl

theorem mapOfS_after_set (s : Store) (t : Ty) (key : String) (v : Option GoVal) :
    mapOfS (storeSet s t key v) t
      = (updAssoc (mapOfS s t).1 key v, storeSet s t key v) := by
  have hs : lookupA (storeSet s t key v) t = some (updAssoc (mapOfS s t).1 key v) := by
    unfold storeSet
    exact lookupA_upd_self _ _ _
  conv_lhs => unfold mapOfS
  rw [hs]

theorem localGet_after_set (s : Store) (t : Ty) (key : String) (v : GoVal) :
    (localGet (storeSet s t key (some v)) t key).1 = some v := by
  have hv : lookupVal (updAssoc (mapOfS s t).1 key (some v)) key = some v := by
    unfold lookupVal
    rw [lookupA_upd_self]
  simp only [localGet, mapOfS_after_set, hv]

theorem get_after_set (inj : Injector) (t : Ty) (key : String) (v : GoVal) :
    ((inj.Set t key (some v)).Get t key).1 = some v := by
  cases inj with
  | root vs =>
    show ((Injector.root (storeSet vs t key (some v))).Get t key).1 = some v
    simp only [Injector.Get]
    exact localGet_after_set vs t key v
  | child vs p =>
    show ((Injector.child (storeSet vs t key (some v)) p).Get t key).1 = some v
    simp only [Injector.Get]
    rw [localGet_after_set]

theorem storeSet_frame (s : Store) (t : Ty) (key : String) (v : Option GoVal)
    (t' : Ty) (k' : String) (h : ¬(t' = t ∧ k' = key)) :
    directStore (storeSet s t key v) t' k' = directStore s t' k' := by
  by_cases ht : t' = t
  · subst ht
    have hk : k' ≠ key := fun hc => h ⟨rfl, hc⟩
    have h1 : directStore (storeSet s t' key v) t' k'
        = lookupVal (updAssoc (mapOfS s t').1 key v) k' := by
      unfold storeSet directStore
      rw [lookupA_upd_self]
    rw [h1]
    unfold lookupVal
    rw [lookupA_upd_other _ _ _ _ hk]
    unfold directStore mapOfS
    cases hl : lookupA s t' with
    | some m => simp [lookupVal]
    | none => simp [lookupA]
  · have h1 : directStore (storeSet s t key v) t' k'
        = directStore (mapOfS s t).2 t' k' := by
      unfold storeSet directStore
      rw [lookupA_upd_other _ _ _ _ ht]
    rw [h1, directStore_mapOfS]

theorem sameBindings_refl (inj : Injector) : sameBindings inj inj := by
  induction inj with
  | root vs =>
    intro t k
    rfl
  | child vs p ih =>
    exact ⟨fun t k => rfl, ih⟩

theorem injectFields_skip_all (inj : Injector) (fs : List (FieldDecl × GoVal)) :
    injectFields inj false fs = (.ok, fs, inj) := by
  induction fs with
  | nil => rfl
  | cons hd tl ih =>
    obtain ⟨d, v0⟩ := hd
    simp [injectFields, ih]

theorem injectFields_cons_skip (inj : Injector) (addr : Bool) (d : FieldDecl) (v0 : GoVal)
    (rest : List (FieldDecl × GoVal)) (h : (addr && d.exported) = false) :
    injectFields inj addr ((d, v0) :: rest)
      = ((injectFields inj addr rest).1, (d, v0) :: (injectFields inj addr rest).2.1,
         (injectFields inj addr rest).2.2) := by
  simp only [injectFields, h, Bool.not_false, if_true]

theorem injectFields_cons_notag (inj : Injector) (addr : Bool) (d : FieldDecl) (v0 : GoVal)
    (rest : List (FieldDecl × GoVal)) (h : (addr && d.exported) = true)
    (ht : lookupTag d.tag "inject" = none) :
    injectFields inj addr ((d, v0) :: rest)
      = ((injectFields inj addr rest).1, (d, v0) :: (injectFields inj addr rest).2.1,
         (injectFields inj addr rest).2.2) := by
  simp only [injectFields, h, Bool.not_true, Bool.false_eq_true, if_false, ht]

theorem injectFields_cons_missing (inj : Injector) (addr : Bool) (d : FieldDecl) (v0 : GoVal)
    (rest : List (FieldDecl × GoVal)) (k : String) (h : (addr && d.exported) = true)
    (ht : lookupTag d.tag "inject" = some k) (hg : (inj.Get d.ty k).1 = none) :
    injectFields inj addr ((d, v0) :: rest)
      = (.notFound d.ty, (d, v0) :: rest, (inj.Get d.ty k).2) := by
  simp only [injectFields, h, Bool.not_true, Bool.false_eq_true, if_false, ht, hg]

theorem injectFields_cons_wired (inj : Injector) (addr : Bool) (d : FieldDecl) (v0 v : GoVal)
    (rest : List (FieldDecl × GoVal)) (k : String) (h : (addr && d.exported) = true)
    (ht : lookupTag d.tag "inject" = some k) (hg : (inj.Get d.ty k).1 = some v)
    (ha : assignable v.ty d.ty = true) :
    injectFields inj addr ((d, v0) :: rest)
      = ((injectFields (inj.Get d.ty k).2 addr rest).1,
         (d, v) :: (injectFields (inj.Get d.ty k).2 addr rest).2.1,
         (injectFields (inj.Get d.ty k).2 addr rest).2.2) := by
  simp only [injectFields, h, Bool.not_true, Bool.false_eq_true, if_false, ht, hg, ha, if_true]

theorem injectFields_cons_badset (inj : Injector) (addr : Bool) (d : FieldDecl) (v0 v : GoVal)
    (rest : List (FieldDecl × GoVal)) (k : String) (h : (addr && d.exported) = true)
    (ht : lookupTag d.tag "inject" = some k) (hg : (inj.Get d.ty k).1 = some v)
    (ha : assignable v.ty d.ty = false) :
    injectFields inj addr ((d, v0) :: rest)
      = (.panicked d.ty v, (d, v0) :: rest, (inj.Get d.ty k).2) := by
  simp only [injectFields, h, Bool.not_true, Bool.false_eq_true, if_false, ht, hg, ha]

theorem injectFields_append (addr : Bool) (fs2 fs1 : List (FieldDecl × GoVal)) :
    ∀ (inj inj1 : Injector) (fs1' : List (FieldDecl × GoVal)),
      injectFields inj addr fs1 = (.ok, fs1', inj1) →
      injectFields inj addr (fs1 ++ fs2)
        = ((injectFields inj1 addr fs2).1,
           fs1' ++ (injectFields inj1 addr fs2).2.1,
           (injectFields inj1 addr fs2).2.2) := by
  induction fs1 with
  | nil =>
    intro inj inj1 fs1' h
    simp only [injectFields, Prod.mk.injEq] at h
    obtain ⟨-, hf, hi⟩ := h
    subst hf
    subst hi
    simp
  | cons hd tl ih =>
    intro inj inj1 fs1' h
    obtain ⟨d, v0⟩ := hd
    rw [List.cons_append]
    cases hset : addr && d.exported with
    | false =>
      rw [injectFields_cons_skip inj addr d v0 tl hset] at h
      rw [injectFields_cons_skip inj addr d v0 (tl ++ fs2) hset]
      simp only [Prod.mk.injEq] at h
      obtain ⟨h1, h2, h3⟩ := h
      have hE : injectFields inj addr tl
          = (Outcome.ok, (injectFields inj addr tl).2.1, inj1) := by
        rw [← h1, ← h3]
      rw [ih inj inj1 (injectFields inj addr tl).2.1 hE]
      subst h2
      simp
    | true =>
      cases htag : lookupTag d.tag "inject" with
      | none =>
        rw [injectFields_cons_notag inj addr d v0 tl hset htag] at h
        rw [injectFields_cons_notag inj addr d v0 (tl ++ fs2) hset htag]
        simp only [Prod.mk.injEq] at h
        obtain ⟨h1, h2, h3⟩ := h
        have hE : injectFields inj addr tl
            = (Outcome.ok, (injectFields inj addr tl).2.1, inj1) := by
          rw [← h1, ← h3]
        rw [ih inj inj1 (injectFields inj addr tl).2.1 hE]
        subst h2
        simp
      | some k =>
        cases hg : (inj.Get d.ty k).1 with
        | none =>
          rw [injectFields_cons_missing inj addr d v0 tl k hset htag hg] at h
          simp at h
        | some v =>
          cases hasg : assignable v.ty d.ty with
          | false =>
            rw [injectFields_cons_badset inj addr d v0 v tl k hset htag hg hasg] at h
            simp at h
          | true =>
            rw [injectFields_cons_wired inj addr d v0 v tl k hset htag hg hasg] at h
            rw [injectFields_cons_wired inj addr d v0 v (tl ++ fs2) k hset htag hg hasg]
            simp only [Prod.mk.injEq] at h
            obtain ⟨h1, h2, h3⟩ := h
            have hE : injectFields (inj.Get d.ty k).2 addr tl
                = (Outcome.ok, (injectFields (inj.Get d.ty k).2 addr tl).2.1, inj1) := by
              rw [← h1, ← h3]
            rw [ih (inj.Get d.ty k).2 inj1 (injectFields (inj.Get d.ty k).2 addr tl).2.1 hE]
            subst h2
            simp

/-- C1: for every registry, requested type `t` and key, `Get` resolves in
exactly the spec's fallback order: direct local lookup of `(t, key)`; on a
miss, for interface shapes, the scan of locally registered types for an
implementor with a binding under the key; then delegation of the whole
call to the parent when installed; otherwise the invalid marker is
returned, not an error. -/
theorem get_follows_fallback_order (inj : Injector) (t : Ty) (key : String) :
    (inj.Get t key).1 = specGet inj t key := by
  induction inj with
  | root vs =>
    show (localGet vs t key).1 = _
    rw [localGet_fst]
    rfl
  | child vs p ih =>
    have hl := localGet_fst vs t key
    simp only [Injector.Get]
    cases hd : directStore vs t key with
    | some w =>
      rw [hd] at hl
      simp only [specGet, hd, hl]
    | none =>
      rw [hd] at hl
      cases hs : (if t.isInterface then scanVals vs t key else none) with
      | some w =>
        rw [hs] at hl
        simp only [specGet, hd, hs, hl]
      | none =>
        rw [hs] at hl
        simp only [specGet, hd, hs, hl, ih]

/-- C2 counterexample: `Get` is not free of side effects on the store: on a
fresh empty registry, looking up a never-registered type inserts an empty
inner map for it, so the registry after the call differs from the one
before. -/
theorem get_not_pure_counterexample :
    ((Injector.root []).Get (Ty.named "int" []) "").2 ≠ Injector.root [] := by
  decide

/-- C2 amended: `Get` never changes any binding nor the shape of the
parent chain; its only store effect is materializing empty inner maps
(via `mapOf`) for the requested type at registries it visits. -/
theorem get_preserves_bindings (inj : Injector) (t : Ty) (key : String) :
    sameBindings inj (inj.Get t key).2 := by
  induction inj with
  | root vs =>
    intro t' k'
    show directStore vs t' k' = directStore (localGet vs t key).2 t' k'
    rw [localGet_snd, directStore_mapOfS]
  | child vs p ih =>
    simp only [Injector.Get]
    cases hld : (localGet vs t key).1 with
    | some w =>
      refine ⟨fun t' k' => ?_, sameBindings_refl p⟩
      rw [localGet_snd, directStore_mapOfS]
    | none =>
      refine ⟨fun t' k' => ?_, ih⟩
      rw [localGet_snd, directStore_mapOfS]

theorem inject_ptr_struct (inj : Injector) (fs : List (FieldDecl × GoVal)) :
    Injector.Inject inj (.ptrTo (.struktV fs))
      = ((injectFields inj true fs).1, .ptrTo (.struktV (injectFields inj true fs).2.1),
         (injectFields inj true fs).2.2) := by
  simp only [Injector.Inject, derefAll, isIndirect, rebuild]

/-- C3: `Get` immediately after `Register` under the value's own dynamic
type, and immediately after `Set` under an explicit type and a valid
value, returns exactly the stored value. -/
theorem get_after_register_or_set (inj : Injector) (v : GoVal) (t : Ty) (key : String) :
    ((inj.Register v key).Get v.ty key).1 = some v ∧
    ((inj.Set t key (some v)).Get t key).1 = some v := by
  constructor
  · rw [register_eq_set]
    exact get_after_set inj v.ty key v
  · exact get_after_set inj t key v

/-- C4: at most one value per (type, key) pair within a registry:
overwriting via `Set` or `Register` under the same pair leaves only the
latest value retrievable by `Get`, and the overwrite changes no other
binding of the registry. -/
theorem rebind_overwrites_and_frames (inj : Injector) (t : Ty) (key : String)
    (v1 v2 u1 u2 : GoVal) (t' : Ty) (k' : String) (hu : u1.ty = u2.ty)
    (hne : ¬(t' = t ∧ k' = key)) :
    (((inj.Set t key (some v1)).Set t key (some v2)).Get t key).1 = some v2 ∧
    (((inj.Register u1 key).Register u2 key).Get u2.ty key).1 = some u2 ∧
    directStore ((inj.Set t key (some v1)).Set t key (some v2)).storeOf t' k'
      = directStore (inj.Set t key (some v1)).storeOf t' k' := by
  refine ⟨get_after_set _ t key v2, ?_, ?_⟩
  · rw [register_eq_set, register_eq_set]
    exact get_after_set _ u2.ty key u2
  · have h1 : ((inj.Set t key (some v1)).Set t key (some v2)).storeOf
        = storeSet (inj.Set t key (some v1)).storeOf t key (some v2) :=
      storeOf_withStore _ _
    rw [h1, storeSet_frame _ _ _ _ _ _ hne]

/-- C4 witness at concrete inputs. -/
theorem rebind_overwrites_and_frames_witness :
    (vA.ty = vB.ty) ∧ ¬(tyInt = tyStr ∧ "k" = "k") ∧
    ((((Injector.root []).Set tyStr "k" (some vA)).Set tyStr "k" (some vB)).Get tyStr "k").1
      = some vB ∧
    ((((Injector.root []).Register vA "k").Register vB "k").Get vB.ty "k").1 = some vB ∧
    directStore (((Injector.root []).Set tyStr "k" (some vA)).Set tyStr "k"
        (some vB)).storeOf tyInt "k"
      = directStore ((Injector.root []).Set tyStr "k" (some vA)).storeOf tyInt "k" := by
  have h := rebind_overwrites_and_frames (Injector.root []) tyStr "k" vA vB vA vB tyInt "k"
    (by decide) (by decide)
  exact ⟨by decide, by decide, h.1, h.2.1, h.2.2⟩

/-- C5: `InterfaceOf` strips pointer indirection one level at a time,
panics exactly when the final stripped shape is not an interface type,
and returns the stripped interface type without panicking otherwise. -/
theorem interfaceOf_strips_and_panics_iff (t : Ty) :
    InterfaceOf (Ty.ptr t) = InterfaceOf t ∧
    ((stripPtr t).isInterface = false ↔ InterfaceOf t = .error interfaceOfPanicMsg) ∧
    ((stripPtr t).isInterface = true → InterfaceOf t = .ok (stripPtr t)) := by
  have hstrip : stripPtr (Ty.ptr t) = stripPtr t := rfl
  refine ⟨by unfold InterfaceOf; rw [hstrip], ?_, ?_⟩
  · unfold InterfaceOf
    cases hi : (stripPtr t).isInterface <;> simp [hi]
  · intro h
    unfold InterfaceOf
    simp [h]

/-- C5 witness: a double pointer to an interface strips to the interface. -/
theorem interfaceOf_witness :
    ((stripPtr (Ty.ptr (Ty.ptr tyS))).isInterface = true) ∧
    InterfaceOf (Ty.ptr (Ty.ptr tyS)) = .ok tyS :=
  ⟨by decide, (interfaceOf_strips_and_panics_iff (Ty.ptr tyS)).2.2 (by decide)⟩

/-- C6 counterexample: a bare `inject` marker does not cause wiring.  With
a matching dependency registered under the field's type and the empty key,
the bare-tagged field is skipped: Inject succeeds but leaves the zero
value in place instead of the registered value. -/
theorem bare_marker_counterexample :
    Injector.Inject injA (.ptrTo (.struktV [(fldBare, vZero)]))
      = (.ok, .ptrTo (.struktV [(fldBare, vZero)]), injA) ∧ vZero ≠ vA := by
  constructor
  · decide
  · decide

/-- C6 amended: the annotation is recognized only in the conventional
keyed form `inject:"k"` (whose string, possibly empty, is the Key passed
to Get and drives the wiring); the bare `inject` marker is not recognized
by the tag lookup, so a field carrying it is skipped. -/
theorem tag_forms_recognized (inj : Injector) (ft : Ty) (v0 : GoVal) :
    lookupTag "inject:\"t\"" "inject" = some "t" ∧
    lookupTag "inject:\"\"" "inject" = some "" ∧
    lookupTag "inject" "inject" = none ∧
    Injector.Inject inj (.ptrTo (.struktV [(⟨true, "inject", ft⟩, v0)]))
      = (.ok, .ptrTo (.struktV [(⟨true, "inject", ft⟩, v0)]), inj) ∧
    Injector.Inject inj (.ptrTo (.struktV [(⟨true, "inject:\"t\"", ft⟩, v0)]))
      = (match (inj.Get ft "t").1 with
         | none => (.notFound ft, .ptrTo (.struktV [(⟨true, "inject:\"t\"", ft⟩, v0)]),
                    (inj.Get ft "t").2)
         | some v =>
           if assignable v.ty ft then
             (.ok, .ptrTo (.struktV [(⟨true, "inject:\"t\"", ft⟩, v)]), (inj.Get ft "t").2)
           else (.panicked ft v, .ptrTo (.struktV [(⟨true, "inject:\"t\"", ft⟩, v0)]),
                 (inj.Get ft "t").2)) := by
  refine ⟨by decide, by decide, by decide, ?_, ?_⟩
  · rw [inject_ptr_struct]
    rw [injectFields_cons_notag inj true ⟨true, "inject", ft⟩ v0 [] rfl
      (show lookupTag "inject" "inject" = none by decide)]
    simp [injectFields]
  · rw [inject_ptr_struct]
    cases hg : (inj.Get ft "t").1 with
    | none =>
      rw [injectFields_cons_missing inj true ⟨true, "inject:\"t\"", ft⟩ v0 [] "t" rfl
        (show lookupTag "inject:\"t\"" "inject" = some "t" by decide) hg]
    | some v =>
      cases ha : assignable v.ty ft with
      | true =>
        rw [injectFields_cons_wired inj true ⟨true, "inject:\"t\"", ft⟩ v0 v [] "t" rfl
          (show lookupTag "inject:\"t\"" "inject" = some "t" by decide) hg ha]
        simp [injectFields, ha]
      | false =>
        rw [injectFields_cons_badset inj true ⟨true, "inject:\"t\"", ft⟩ v0 v [] "t" rfl
          (show lookupTag "inject:\"t\"" "inject" = some "t" by decide) hg ha]
        simp [ha]

/-- C7: when an annotated field's dependency resolves to the invalid
value, Inject aborts at that field and returns the error naming the
field's type; fields processed earlier keep the values already assigned
to them, and the fields after the failing one are left untouched. -/
theorem inject_aborts_on_missing_dep (inj inj1 : Injector)
    (fs1 fs2 fs1' : List (FieldDecl × GoVal)) (d : FieldDecl) (v0 : GoVal) (k : String)
    (hexp : d.exported = true) (htag : lookupTag d.tag "inject" = some k)
    (hok : injectFields inj true fs1 = (.ok, fs1', inj1))
    (hmiss : (inj1.Get d.ty k).1 = none) :
    Injector.Inject inj (.ptrTo (.struktV (fs1 ++ (d, v0) :: fs2)))
      = (.notFound d.ty, .ptrTo (.struktV (fs1' ++ (d, v0) :: fs2)), (inj1.Get d.ty k).2) := by
  rw [inject_ptr_struct]
  rw [injectFields_append true ((d, v0) :: fs2) fs1 inj inj1 fs1' hok]
  rw [injectFields_cons_missing inj1 true d v0 fs2 k (by simp [hexp]) htag hmiss]

/-- C7 witness: first field resolves from the registry, second field's
interface type is nowhere registered. -/
theorem inject_aborts_on_missing_dep_witness :
    (fldMissing.exported = true) ∧
    lookupTag fldMissing.tag "inject" = some "" ∧
    injectFields injA true [(fldKeyedEmpty, vZero)] = (.ok, [(fldKeyedEmpty, vA)], injA) ∧
    (injA.Get fldMissing.ty "").1 = none ∧
    Injector.Inject injA
        (.ptrTo (.struktV ([(fldKeyedEmpty, vZero)] ++ (fldMissing, vZero) :: [])))
      = (.notFound fldMissing.ty,
         .ptrTo (.struktV ([(fldKeyedEmpty, vA)] ++ (fldMissing, vZero) :: [])),
         (injA.Get fldMissing.ty "").2) :=
  ⟨by decide, by decide, by decide, by decide,
    inject_aborts_on_missing_dep injA injA [(fldKeyedEmpty, vZero)] [] [(fldKeyedEmpty, vA)]
      fldMissing vZero "" (by decide) (by decide) (by decide) (by decide)⟩

/-- C8: a resolved value is assigned into the field only when its type is
assignable to the field's declared type; a mismatch (such as a value
stored via RegisterAs under an interface it does not implement) makes the
field assignment panic instead of silently coercing. -/
theorem inject_set_requires_assignable (inj : Injector) (d : FieldDecl) (v0 v : GoVal)
    (k : String) (hexp : d.exported = true) (htag : lookupTag d.tag "inject" = some k)
    (hget : (inj.Get d.ty k).1 = some v) :
    Injector.Inject inj (.ptrTo (.struktV [(d, v0)]))
      = (if assignable v.ty d.ty then
           (.ok, .ptrTo (.struktV [(d, v)]), (inj.Get d.ty k).2)
         else (.panicked d.ty v, .ptrTo (.struktV [(d, v0)]), (inj.Get d.ty k).2)) := by
  rw [inject_ptr_struct]
  cases ha : assignable v.ty d.ty with
  | true =>
    rw [injectFields_cons_wired inj true d v0 v [] k (by simp [hexp]) htag hget ha]
    simp [injectFields, ha]
  | false =>
    rw [injectFields_cons_badset inj true d v0 v [] k (by simp [hexp]) htag hget ha]
    simp [ha]

/-- C8 witness: `"a dep"` was stored under the `Speaker` interface via
RegisterAs although `string` does not implement it; injecting a `Speaker`
field panics rather than assigning. -/
theorem inject_set_requires_assignable_witness :
    (fldMissing.exported = true) ∧
    lookupTag fldMissing.tag "inject" = some "" ∧
    (injBad.Get fldMissing.ty "").1 = some vA ∧
    (assignable vA.ty fldMissing.ty = false) ∧
    Injector.Inject injBad (.ptrTo (.struktV [(fldMissing, vZero)]))
      = (.panicked fldMissing.ty vA, .ptrTo (.struktV [(fldMissing, vZero)]),
         (injBad.Get fldMissing.ty "").2) := by
  refine ⟨by decide, by decide, by decide, by decide, ?_⟩
  have h := inject_set_requires_assignable injBad fldMissing vZero vA "" (by decide)
    (by decide) (by decide)
  rw [h]
  decide

/-- C9: an input whose value is not struct-shaped after dereferencing any
number of pointer layers makes Inject a no-op success: nil error, input
and registry unchanged. -/
theorem inject_noop_non_struct (inj : Injector) (val : InVal)
    (h : isStructShaped (derefAll val) = false) :
    Injector.Inject inj val = (.ok, val, inj) := by
  unfold Injector.Inject
  cases hd : derefAll val with
  | none => simp
  | some x =>
    cases x with
    | ptrTo p => simp
    | nilp => simp
    | nonStruct t => simp
    | struktV fs =>
      rw [hd] at h
      simp [isStructShaped] at h

/-- C9 witness: an int value. -/
theorem inject_noop_non_struct_witness :
    (isStructShaped (derefAll (.nonStruct tyInt)) = false) ∧
    Injector.Inject (Injector.root []) (.nonStruct tyInt)
      = (.ok, .nonStruct tyInt, Injector.root []) :=
  ⟨by decide, inject_noop_non_struct (Injector.root []) (.nonStruct tyInt) (by decide)⟩

/-- C10: a struct passed by value (not through a pointer) is a silent
no-op success: no field of the non-addressable struct is settable, every
field is skipped by the settability check, no Get is performed, no error
is returned, and the struct is never populated. -/
theorem inject_byvalue_noop (inj : Injector) (fs : List (FieldDecl × GoVal)) :
    Injector.Inject inj (.struktV fs) = (.ok, .struktV fs, inj) := by
  have h := injectFields_skip_all inj fs
  show ((injectFields inj false fs).1, InVal.struktV (injectFields inj false fs).2.1,
        (injectFields inj false fs).2.2) = (.ok, .struktV fs, inj)
  rw [h]
